import Mathlib

/-!
Verification development for the `schema` package (JSON Schema compiler /
validator, file `schema.go`).  The Go source is shallowly embedded below:
pure Go functions become Lean functions, the mutable per-node caches become
explicit state passing, `float64` is modelled as `Rat` (all inputs exercised
are exactly representable), and Go panics are an explicit outcome.
-/

namespace JSSchema

/-- Modelled from the spec: the primitive type tags of §3
(`{object, array, string, integer, number, boolean, null}`); the Go
declarations (`PrimitiveType` constants) are not part of `schema.go`. -/
inductive PrimitiveType where
  | nullT
  | booleanT
  | objectT
  | arrayT
  | numberT
  | stringT
  | integerT
deriving DecidableEq, Repr

/-- Modelled from the spec: the tri-state optional-number wrapper
(`Number` with fields `Val`, `Initialized`); §3 "ScalarConstraint". -/
structure Number where
  Val : Rat
  Initialized : Bool
deriving DecidableEq, Repr

/-- Modelled from the spec: the tri-state optional-integer wrapper
(`Integer` with fields `Val`, `Initialized`). -/
structure GoInteger where
  Val : Int
  Initialized : Bool
deriving DecidableEq, Repr

/-- Modelled from the spec: the tri-state optional-boolean wrapper
(`Bool` with fields `Val`, `Initialized`, `Default`); `extractBool` in
`schema.go` sets all three fields, and `Bool()` yields `Val` when
initialized, else `Default`. -/
structure GoBool where
  Val : Bool
  Initialized : Bool
  Default : Bool
deriving DecidableEq, Repr

/-- `Bool.Bool()` accessor used at `def.ExclusiveMinimum.Bool()`. -/
def GoBool.bool (b : GoBool) : Bool :=
  if b.Initialized then b.Val else b.Default

/-- An uninitialized `Number` (zero value of the Go struct). -/
def Number.none : Number := ⟨0, false⟩

/-- An uninitialized `Integer` (zero value of the Go struct). -/
def GoInteger.none : GoInteger := ⟨0, false⟩

/-- An uninitialized `Bool` (zero value of the Go struct). -/
def GoBool.none : GoBool := ⟨false, false, false⟩

/-- The validation / resolution error vocabulary of the package
(`ErrInvalidType`, `ErrMinimumValidationFailed{Num,Min,Exclusive}`, ...).
Payloads are kept for the errors whose payloads the claims mention;
the regex payload of `ErrPatternValidationFailed` is dropped (functions
carry no decidable equality). -/
inductive VErr where
  | InvalidType
  | NotValidationFailed
  | AnyOfValidationFailed
  | OneOfValidationFailed
  | MinimumValidationFailed (Num Min : Rat) (Exclusive : Bool)
  | MaximumValidationFailed (Num Max : Rat) (Exclusive : Bool)
  | MultipleOfValidationFailed
  | MinLengthValidationFailed (Len : Int) (MinLength : Int)
  | MaxLengthValidationFailed (Len : Int) (MaxLength : Int)
  | PatternValidationFailed (Str : String)
  | InvalidFormat
  | InvalidHostname
  | InvalidIPv4
  | InvalidIPv6
  | FormatParseError
  | RequiredField (Name : String)
  | MinPropertiesValidationFailed (Num Min : Int)
  | MaxPropertiesValidationFailed (Num Max : Int)
  | AdditionalProperties
  | IntegerValidationFailed
  | NumberValidationFailed
  | SchemaNotFound
  | InvalidReference (Reference : String)
  | InvalidFieldValue (Name : String)
deriving DecidableEq, Repr

/-- Outcome of a call into the validation engine.  Go's `error` result is
`ok`/`err`; `panics` records a runtime panic (e.g. `reflect.Value.Float`
called on a non-float value), which in Go unwinds the whole call. -/
inductive VOut where
  | ok
  | err (e : VErr)
  | panics
deriving DecidableEq, Repr

/-- `matchType` (schema.go lines 407-423): empty list accepts anything;
otherwise the loop returns `ErrInvalidType` at the first element that is
not equal to `t` (so it succeeds only when every element equals `t`). -/
def matchTypeLoop (t : PrimitiveType) : List PrimitiveType → Option VErr
  | [] => Option.none
  | tp :: rest => if tp = t then matchTypeLoop t rest else some .InvalidType

/-- `matchType(t, list)` from schema.go lines 407-423. -/
def matchType (t : PrimitiveType) (list : List PrimitiveType) : Option VErr :=
  if list.isEmpty then Option.none else matchTypeLoop t list

/-- C1: the claim says `matchType` is a logical OR over the declared type set,
so with `type = [integer, string]` both an integer kind and a string kind
must pass.  Evaluating the source's `matchType` shows the opposite: the
loop rejects at the first list entry different from the queried kind, so
both kinds are rejected with `InvalidType` (AND semantics, not OR). -/
theorem C1_matchType_is_and_not_or :
    matchType .integerT [.integerT, .stringT] = some .InvalidType ∧
    matchType .stringT [.integerT, .stringT] = some .InvalidType ∧
    matchType .integerT [] = Option.none := by
  decide

/-- The dynamic values handed to `Validate` after `reflect.ValueOf`
(plus pointer unwrapping), classified by `reflect.Kind` exactly as the
kind switches of `validate`/`validateNumber` group them: all signed
integer kinds, all unsigned kinds (incl. `uintptr`), both float kinds,
strings, and map/struct property bags (structs are exposed through the
same property-name/value interface as maps, per `getPropNames`/`getProp`);
`invalidV` stands for every other kind (slices, bools, ...), which the
kind switch of `validate` sends to its `default` branch. -/
inductive GoValue where
  | strV (s : List Char)
  | intV (n : Int)
  | uintV (n : Nat)
  | floatV (f : Rat)
  | mapV (fields : List (String × GoValue))
  | invalidV

/-- `reflect.Value.Float()`: defined for float kinds only; on any other
kind the Go runtime panics ("call of reflect.Value.Float on ... Value"). -/
def goFloat : GoValue → Option Rat
  | .floatV f => some f
  | _ => Option.none

/-- The `float64` coercion switch at the top of `validateNumber`
(schema.go lines 607-616): int kinds via `rv.Int()`, uint kinds via
`rv.Uint()`, float kinds via `rv.Float()`; any other kind leaves the
zero value `f = 0`. -/
def numFloat : GoValue → Rat
  | .intV n => (n : Rat)
  | .uintV n => (n : Rat)
  | .floatV f => f
  | _ => 0

/-- Truncation toward zero, as in Go's `math.Trunc`. -/
def ratTrunc (q : Rat) : Int :=
  if 0 ≤ q then Rat.floor q else -(Rat.floor (-q))

/-- Go's `math.Mod(x, y)`: remainder with the sign of `x`,
`x - y*Trunc(x/y)` (for the finite, nonzero-divisor cases exercised). -/
def goMod (x y : Rat) : Rat :=
  x - y * ((ratTrunc (x / y) : Int) : Rat)

/-- The `multipleOf` tail of `validateNumber` (schema.go lines 646-661):
guarded by `MultipleOf.Val != 0` (the `Initialized` flag is not consulted);
the inner kind switch computes `math.Mod(f, v)` for every numeric kind and
leaves `mod = 0` for any other kind. -/
def validateNumberMultipleOf (rv : GoValue) (f : Rat) (mo : Number) : VOut :=
  if mo.Val ≠ 0 then
    let mod : Rat :=
      match rv with
      | .intV _ => goMod f mo.Val
      | .uintV _ => goMod f mo.Val
      | .floatV _ => goMod f mo.Val
      | _ => 0
    if mod ≠ 0 then .err .MultipleOfValidationFailed else .ok
  else .ok

/-- The `maximum` block of `validateNumber` (schema.go lines 632-644):
with the exclusive flag set it rejects when `f > Maximum.Val`; with the
flag unset it rejects when `f >= Maximum.Val`. -/
def validateNumberMax (rv : GoValue) (f : Rat) (mx mo : Number) (emx : GoBool) : VOut :=
  if mx.Initialized then
    if emx.bool then
      if f > mx.Val then .err (.MaximumValidationFailed f mx.Val true)
      else validateNumberMultipleOf rv f mo
    else
      if f ≥ mx.Val then .err (.MaximumValidationFailed f mx.Val false)
      else validateNumberMultipleOf rv f mo
  else validateNumberMultipleOf rv f mo

/-- `validateNumber(rv, def)` (schema.go lines 595-662); the fields of
`def` it reads (`Minimum`, `Maximum`, `MultipleOf`, `ExclusiveMinimum`,
`ExclusiveMaximum`) are passed explicitly.  The `minimum` block
(lines 618-630): with the exclusive flag set it rejects when
`f < Minimum.Val`; with the flag unset it rejects when `f <= Minimum.Val`. -/
def validateNumber (rv : GoValue) (mn mx mo : Number) (emn emx : GoBool) : VOut :=
  let f := numFloat rv
  if mn.Initialized then
    if emn.bool then
      if f < mn.Val then .err (.MinimumValidationFailed f mn.Val true)
      else validateNumberMax rv f mx mo emx
    else
      if f ≤ mn.Val then .err (.MinimumValidationFailed f mn.Val false)
      else validateNumberMax rv f mx mo emx
  else validateNumberMax rv f mx mo emx

/-- C2: the claim says exclusive minimum fails exactly when `f <= m` and
inclusive minimum fails exactly when `f < m` (so `f = m` passes when the
flag is unset), symmetrically for maximum.  Evaluating `validateNumber`
at `f = m = 5` shows the comparisons are inverted in the source: with the
exclusive flag set the check passes at `f = m` (claim: must fail), and
with the flag unset it fails at `f = m` (claim: must pass); the maximum
side is inverted the same way. -/
theorem C2_min_max_exclusivity_inverted :
    validateNumber (.floatV 5) ⟨5, true⟩ Number.none Number.none ⟨true, true, false⟩ GoBool.none
      = .ok ∧
    validateNumber (.floatV 5) ⟨5, true⟩ Number.none Number.none GoBool.none GoBool.none
      = .err (.MinimumValidationFailed 5 5 false) ∧
    validateNumber (.floatV 5) Number.none ⟨5, true⟩ Number.none GoBool.none ⟨true, true, false⟩
      = .ok ∧
    validateNumber (.floatV 5) Number.none ⟨5, true⟩ Number.none GoBool.none GoBool.none
      = .err (.MaximumValidationFailed 5 5 false) := by
  decide

/-- A compiled-regex value (`*regexp.Regexp`) is modelled by its
`MatchString` predicate (substring search, as in the source). -/
def Matcher := String → Bool

/-- Number of bytes of the UTF-8 encoding of one code point. -/
def utf8Size (c : Char) : Int :=
  if c.val < 0x80 then 1
  else if c.val < 0x800 then 2
  else if c.val < 0x10000 then 3
  else 4

/-- Go's `len(s)` / `reflect.Value.Len()` on a string: its length in
BYTES of UTF-8, not in code points. -/
def goByteLen (sv : List Char) : Int :=
  (sv.map utf8Size).sum

/-- `validateString(rv, def)` (schema.go lines 507-538): the `minLength` /
`maxLength` checks compare `rv.Len()` (the byte length) against the bound,
then `pattern` must match somewhere in the string.  The trailing `format`
dispatch (lines 540-590) delegates to external parsers (RFC3339 time,
RFC5322 mail, `net.ParseIP`, `url.Parse`) and is outside the modelled
fragment: the development only evaluates schemas with no `format` keyword,
for which that block is not reached. -/
def validateString (sv : List Char) (minL maxL : GoInteger) (pat : Option Matcher) : VOut :=
  if minL.Initialized ∧ goByteLen sv < minL.Val then
    .err (.MinLengthValidationFailed (goByteLen sv) minL.Val)
  else if maxL.Initialized ∧ goByteLen sv > maxL.Val then
    .err (.MaxLengthValidationFailed (goByteLen sv) maxL.Val)
  else
    match pat with
    | some p =>
      if p (String.mk sv) then .ok
      else .err (.PatternValidationFailed (String.mk sv))
    | Option.none => .ok

/-- C7: the claim says the length compared against `minLength`/`maxLength`
is the string's length in characters (code points).  The one-character
string "é" (code point U+00E9, two UTF-8 bytes) against `maxLength: 1`
shows the source compares the BYTE length `rv.Len()`: it fails with
`MaxLengthValidationFailed` carrying observed length 2, although the
character count is 1 and the claim requires the check to pass. -/
theorem C7_length_is_bytes_not_chars :
    goByteLen ['é'] = 2 ∧
    ['é'].length = 1 ∧
    validateString ['é'] GoInteger.none ⟨1, true⟩ Option.none
      = .err (.MaxLengthValidationFailed 2 1) := by
  refine ⟨by decide, by decide, ?_⟩
  decide

/-- The `Schema` node restricted to the keywords the validation engine
reads (the metadata fields `id`/`title`/`description`/`default`/
`$schema`/`definitions`/`items`/`additionalItems` are never consulted by
`validate` and are left to the construction/resolution models below).
Field order follows the reads in `validate` and its helpers.  `$ref` is
not a field of this validation model: `resolveCurrentSchemaReference`
(schema.go lines 316-331) is the identity whenever `Reference` is empty,
and the validation claims are settled on reference-free schemas.
Go's map-valued `properties`/`patternProperties` are determinized into
association lists (no claim depends on Go's map iteration order). -/
inductive Schema where
  | mk
    (ty : List PrimitiveType)
    (minimum maximum multipleOf : Number)
    (exclusiveMinimum exclusiveMaximum : GoBool)
    (minLength maxLength : GoInteger)
    (pattern : Option Matcher)
    (required : List String)
    (minProperties maxProperties : GoInteger)
    (properties : List (String × Schema))
    (patternProperties : List (Matcher × Schema))
    (additionalProperties : Option (Option Schema))
    (allOf anyOf oneOf : List Schema)
    (notS : Option Schema)

/-- `getProp` (schema.go lines 390-405) for map values: `rv.MapIndex`,
i.e. association-list lookup; an absent key is the `zeroval` sentinel. -/
def getPropV (fields : List (String × GoValue)) (pname : String) : Option GoValue :=
  (fields.find? (fun p => p.1 == pname)).map (·.2)

/-- `isPropRequired` (schema.go lines 353-360). -/
def isPropRequired (req : List String) (pname : String) : Bool :=
  req.contains pname

/-- Strict positivity of list sizes, used by the termination measures. -/
theorem sizeOf_list_pos {α : Type} [SizeOf α] (l : List α) : 0 < sizeOf l := by
  cases l <;> simp_arith

mutual

/-- `validate(rv, def)` (schema.go lines 725-849):
1. `resolveCurrentSchemaReference` — identity here (reference-free model).
2. The combinator `switch` (lines 742-793) — `combStep`.
3. The kind `switch` (lines 795-847) — `kindStep`.
A panic anywhere unwinds the whole call (`.panics` is absorbing). -/
def validate (rv : GoValue) (s : Schema) : VOut :=
  match s with
  | .mk ty mn mx mo emn emx mnl mxl pat req mnp mxp props pprops aprops aof ayf oof nt =>
    match combStep rv nt aof ayf oof with
    | .err e => .err e
    | .panics => .panics
    | .ok => kindStep rv ty mn mx mo emn emx mnl mxl pat req mnp mxp props pprops aprops
  termination_by sizeOf s
  decreasing_by
    all_goals simp_wf
    all_goals omega

/-- The combinator `switch` of `validate` (schema.go lines 742-793): a Go
`switch` runs only the FIRST case whose guard holds, so exactly one of
`not` / `allOf` / `anyOf` / `oneOf` is evaluated — the first present one.
The `not` case succeeds exactly when the inner validation fails. -/
def combStep (rv : GoValue) (nt : Option Schema) (aof ayf oof : List Schema) : VOut :=
  match nt with
  | some n =>
    match validate rv n with
    | .ok => .err .NotValidationFailed
    | .err _ => .ok
    | .panics => .panics
  | Option.none =>
    match aof with
    | aof1 :: aofs => allOfLoop rv (aof1 :: aofs)
    | [] =>
      match ayf with
      | ayf1 :: ayfs => anyOfLoop rv (ayf1 :: ayfs)
      | [] =>
        match oof with
        | oof1 :: oofs =>
          match oneOfLoop rv (oof1 :: oofs) with
          | Option.none => .panics
          | some 1 => .ok
          | some _ => .err .OneOfValidationFailed
        | [] => .ok
  termination_by sizeOf nt + sizeOf aof + sizeOf ayf + sizeOf oof
  decreasing_by
    all_goals simp_wf
    all_goals omega

/-- The `allOf` loop (schema.go lines 757-761): every member must pass;
the first member failure (or panic) is returned as-is. -/
def allOfLoop (rv : GoValue) (l : List Schema) : VOut :=
  match l with
  | [] => .ok
  | s1 :: rest =>
    match validate rv s1 with
    | .ok => allOfLoop rv rest
    | r => r
  termination_by sizeOf l
  decreasing_by
    all_goals simp_wf
    all_goals omega

/-- The `anyOf` loop (schema.go lines 766-777): members are tried in
order, stopping at the first success; if none succeeds the result is
`AnyOfValidationFailed`. -/
def anyOfLoop (rv : GoValue) (l : List Schema) : VOut :=
  match l with
  | [] => .err .AnyOfValidationFailed
  | s1 :: rest =>
    match validate rv s1 with
    | .ok => .ok
    | .err _ => anyOfLoop rv rest
    | .panics => .panics
  termination_by sizeOf l
  decreasing_by
    all_goals simp_wf
    all_goals omega

/-- The `oneOf` counting loop (schema.go lines 782-788): counts the
members the value validates against; `Option.none` records a panic
inside a member (which unwinds the count in Go). -/
def oneOfLoop (rv : GoValue) (l : List Schema) : Option Nat :=
  match l with
  | [] => some 0
  | s1 :: rest =>
    match validate rv s1 with
    | .ok => (oneOfLoop rv rest).map (· + 1)
    | .err _ => oneOfLoop rv rest
    | .panics => Option.none
  termination_by sizeOf l
  decreasing_by
    all_goals simp_wf
    all_goals omega

/-- The kind `switch` of `validate` (schema.go lines 795-847) with the
body of `validateObject` (lines 664-723) inlined for the map case:
map/struct → object validation, string → `validateString`, the numeric
kinds → the integer/number type check and `validateNumber`, every other
kind → `InvalidType`.  In the numeric branch (lines 811-840) the source
calls `rv.Float()` as soon as `matchType(IntegerType, def.Type)`
succeeds, which panics for non-float kinds; the
`IntegerValidationFailed`/`NumberValidationFailed` returns at lines
829-835 are unreachable (`typeOK` is true on every path reaching the
label).  For maps, every enumerated key has a value, so the
min/maxProperties count (lines 670-688) is the number of keys. -/
def kindStep (rv : GoValue) (ty : List PrimitiveType) (mn mx mo : Number)
    (emn emx : GoBool) (mnl mxl : GoInteger) (pat : Option Matcher)
    (req : List String) (mnp mxp : GoInteger)
    (props : List (String × Schema)) (pprops : List (Matcher × Schema))
    (aprops : Option (Option Schema)) : VOut :=
  match rv with
  | .mapV fields =>
    match matchType .objectT ty with
    | some e => .err e
    | Option.none =>
      let names := fields.map (·.1)
      if mnp.Initialized ∧ mnp.Val > (names.length : Int) then
        .err (.MinPropertiesValidationFailed (names.length : Int) mnp.Val)
      else if mxp.Initialized ∧ mxp.Val < (names.length : Int) then
        .err (.MaxPropertiesValidationFailed (names.length : Int) mxp.Val)
      else
        match propsLoop fields req props with
        | .ok =>
          let unclaimed := names.filter (fun nm => ¬ props.any (fun p => p.1 == nm))
          let r2 : VOut :=
            if pprops.length > 0 then
              unclaimed.foldl (fun acc nm =>
                match acc with
                | .ok => patPropsInner fields req nm pprops
                | r => r) .ok
            else .ok
          match r2 with
          | .ok =>
            match aprops with
            | Option.none =>
              let remaining := unclaimed.filter (fun nm => ¬ pprops.any (fun pr => pr.1 nm))
              if remaining.length > 0 then .err .AdditionalProperties else .ok
            | some _ => .ok
          | r => r
        | r => r
  | .strV sv =>
    match matchType .stringT ty with
    | some e => .err e
    | Option.none => validateString sv mnl mxl pat
  | .invalidV => .err .InvalidType
  | _ =>
    match matchType .integerT ty with
    | Option.none =>
      match goFloat rv with
      | Option.none => .panics
      | some f =>
        if ((Rat.floor f : Int) : Rat) = f then
          validateNumber rv mn mx mo emn emx
        else
          match matchType .numberT ty with
          | some e => .err e
          | Option.none => validateNumber rv mn mx mo emn emx
    | some _ =>
      match matchType .numberT ty with
      | some e => .err e
      | Option.none => validateNumber rv mn mx mo emn emx
  termination_by sizeOf props + sizeOf pprops
  decreasing_by
    all_goals simp_wf
    all_goals first
    | (have h1 := sizeOf_list_pos pprops; omega)
    | (have h1 := sizeOf_list_pos props; omega)

/-- The `properties` loop of `validateObject` (schema.go lines 696-701)
with the body of `validateProp` (lines 425-455) inlined: every property
of the schema is visited (Go map iteration determinized to list order);
a property absent from the value fails only when it is required. -/
def propsLoop (fields : List (String × GoValue)) (req : List String)
    (l : List (String × Schema)) : VOut :=
  match l with
  | [] => .ok
  | (pn, ps) :: rest =>
    let r : VOut :=
      match getPropV fields pn with
      | Option.none =>
        if isPropRequired req pn then .err (.RequiredField pn) else .ok
      | some pv => validate pv ps
    match r with
    | .ok => propsLoop fields req rest
    | r1 => r1
  termination_by sizeOf l
  decreasing_by
    all_goals simp_wf
    all_goals omega

/-- The inner `patternProperties` loop of `validateObject` (schema.go
lines 704-713) for one unclaimed property name: every pattern whose
regex matches the name validates the property (via `validateProp`,
lines 425-455), stopping at the first failure. -/
def patPropsInner (fields : List (String × GoValue)) (req : List String)
    (nm : String) (l : List (Matcher × Schema)) : VOut :=
  match l with
  | [] => .ok
  | (pm, ps) :: rest =>
    if pm nm then
      let r : VOut :=
        match getPropV fields nm with
        | Option.none =>
          if isPropRequired req nm then .err (.RequiredField nm) else .ok
        | some pv => validate pv ps
      match r with
      | .ok => patPropsInner fields req nm rest
      | r1 => r1
    else patPropsInner fields req nm rest
  termination_by sizeOf l
  decreasing_by
    all_goals simp_wf
    all_goals omega

end

/-- `Schema.Validate(v)` (schema.go lines 333-351): `reflect.ValueOf`
plus pointer unwrapping, then `validate(rv, &s)`; the model's `GoValue`
is the already-unwrapped reflected value. -/
def SchemaValidate (v : GoValue) (s : Schema) : VOut := validate v s

/-- The schema every keyword of which is absent (the zero value of the
node as `extract` produces it for `{}`: `additionalProperties` missing
means the allow-any `&AdditionalProperties{}`). -/
def emptySchema : Schema :=
  .mk [] Number.none Number.none Number.none GoBool.none GoBool.none
    GoInteger.none GoInteger.none Option.none [] GoInteger.none GoInteger.none
    [] [] (some Option.none) [] [] [] Option.none

/-- C3: the claim says `Validate` returns success or an error for every
input value of any Go kind and never panics, and in particular that the
numeric branch's `reflect.Value.Float()` call is safe for non-float
kinds.  Evaluating the embedded engine on the integer value `1` against
the empty schema shows the panic: `matchType(IntegerType, [])` succeeds,
so line 816 calls `rv.Float()` on a value of kind `int`, which panics. -/
theorem C3_Validate_panics_on_integer_value :
    SchemaValidate (.intV 1) emptySchema = .panics := by
  simp [SchemaValidate, validate, emptySchema, combStep, kindStep, matchType, goFloat]

/-- The `not` member of the C4 counterexample: `{"type": "integer"}`. -/
def c4NotMember : Schema :=
  .mk [.integerT] Number.none Number.none Number.none GoBool.none GoBool.none
    GoInteger.none GoInteger.none Option.none [] GoInteger.none GoInteger.none
    [] [] (some Option.none) [] [] [] Option.none

/-- The `allOf` member of the C4 counterexample: `{"maxLength": 1}`. -/
def c4AllOfMember : Schema :=
  .mk [] Number.none Number.none Number.none GoBool.none GoBool.none
    GoInteger.none ⟨1, true⟩ Option.none [] GoInteger.none GoInteger.none
    [] [] (some Option.none) [] [] [] Option.none

/-- The C4 counterexample schema: both `not` and `allOf` present. -/
def c4Schema : Schema :=
  .mk [] Number.none Number.none Number.none GoBool.none GoBool.none
    GoInteger.none GoInteger.none Option.none [] GoInteger.none GoInteger.none
    [] [] (some Option.none) [c4AllOfMember] [] [] (some c4NotMember)

/-- C4 counterexample: the claim says that when several combinators are
present each of them is evaluated (in the order `not`, `allOf`, `anyOf`,
`oneOf`).  Take the string "ab" against a schema carrying both
`not: {"type":"integer"}` (which passes, since "ab" is not an integer)
and `allOf: [{"maxLength":1}]` (which "ab" violates).  The claim demands
the `allOf` failure; the engine returns success because the combinator
`switch` runs only its first matching case (`not`). -/
theorem C4_counterexample_allOf_skipped :
    validate (.strV ['a', 'b']) c4Schema = .ok ∧
    validate (.strV ['a', 'b']) c4AllOfMember
      = .err (.MaxLengthValidationFailed 2 1) := by
  constructor
  · simp [validate, c4Schema, c4NotMember, combStep, kindStep, allOfLoop,
      matchType, matchTypeLoop, validateString, goByteLen, utf8Size,
      GoInteger.none]
  · simp [validate, c4AllOfMember, combStep, kindStep, matchType,
      validateString, goByteLen, utf8Size, GoInteger.none]

/-- C4 amended: `validate` evaluates at most ONE combinator — the first
present in the fixed order `not`, `allOf`, `anyOf`, `oneOf` — and skips
every later one whenever an earlier one is present, regardless of its
outcome: with `not` present the result is independent of `allOf`,
`anyOf`, `oneOf`; with `not` absent and `allOf` non-empty it is
independent of `anyOf`, `oneOf`; with only `anyOf` non-empty it is
independent of `oneOf`. -/
theorem C4_amended_first_present_combinator_only :
    (∀ (rv : GoValue) (ty : List PrimitiveType) (mn mx mo : Number)
      (emn emx : GoBool) (mnl mxl : GoInteger) (pat : Option Matcher)
      (req : List String) (mnp mxp : GoInteger)
      (props : List (String × Schema)) (pprops : List (Matcher × Schema))
      (aprops : Option (Option Schema)) (aof ayf oof aof' ayf' oof' : List Schema)
      (n : Schema),
      validate rv (.mk ty mn mx mo emn emx mnl mxl pat req mnp mxp props
          pprops aprops aof ayf oof (some n))
        = validate rv (.mk ty mn mx mo emn emx mnl mxl pat req mnp mxp props
            pprops aprops aof' ayf' oof' (some n))) ∧
    (∀ (rv : GoValue) (ty : List PrimitiveType) (mn mx mo : Number)
      (emn emx : GoBool) (mnl mxl : GoInteger) (pat : Option Matcher)
      (req : List String) (mnp mxp : GoInteger)
      (props : List (String × Schema)) (pprops : List (Matcher × Schema))
      (aprops : Option (Option Schema)) (a : Schema) (as ayf oof ayf' oof' : List Schema),
      validate rv (.mk ty mn mx mo emn emx mnl mxl pat req mnp mxp props
          pprops aprops (a :: as) ayf oof Option.none)
        = validate rv (.mk ty mn mx mo emn emx mnl mxl pat req mnp mxp props
            pprops aprops (a :: as) ayf' oof' Option.none)) ∧
    (∀ (rv : GoValue) (ty : List PrimitiveType) (mn mx mo : Number)
      (emn emx : GoBool) (mnl mxl : GoInteger) (pat : Option Matcher)
      (req : List String) (mnp mxp : GoInteger)
      (props : List (String × Schema)) (pprops : List (Matcher × Schema))
      (aprops : Option (Option Schema)) (y : Schema) (ys oof oof' : List Schema),
      validate rv (.mk ty mn mx mo emn emx mnl mxl pat req mnp mxp props
          pprops aprops [] (y :: ys) oof Option.none)
        = validate rv (.mk ty mn mx mo emn emx mnl mxl pat req mnp mxp props
            pprops aprops [] (y :: ys) oof' Option.none)) := by
  refine ⟨?_, ?_, ?_⟩ <;> intros <;>
    (rw [validate.eq_def, validate.eq_def]
     dsimp only
     rw [combStep.eq_def]
     dsimp only
     try rw [combStep.eq_def]
     try dsimp only)

/-- Resolution-model schema node: the `id` field plus the child nodes,
which is all `Root`/`Scope`/`ResolveID`/`ResolveReference` consult.  The
children stand for parent-linked sub-schemas (e.g. `definitions`
entries), addressed by position. -/
inductive RTree where
  | node (nid : String) (children : List RTree)

/-- The `id` field accessor. -/
def RTree.idOf : RTree → String
  | .node i _ => i

mutual

/-- Modelled from the spec: the full-tree id search of §4.2 — "search the
**entire** tree rooted at `Root(n)` for a node whose `id` equals the
queried id (this is a full-tree search, not a self-only check)".  The
corresponding code (`findSchemaByID`) checks only the receiver node and
is marked "XXX Quite unimplemented" in the source. -/
def treeHasID (t : RTree) (qid : String) : Bool :=
  match t with
  | .node i cs => i == qid || listHasID cs qid
  termination_by sizeOf t
  decreasing_by
    all_goals simp_wf
    all_goals omega

/-- Modelled from the spec: the child part of the full-tree id search. -/
def listHasID (cs : List RTree) (qid : String) : Bool :=
  match cs with
  | [] => false
  | c :: rest => treeHasID c qid || listHasID rest qid
  termination_by sizeOf cs
  decreasing_by
    all_goals simp_wf
    all_goals omega

end

/-- `findSchemaByID` (schema.go lines 208-215): compares only the
receiver's own id — the comment in the source reads
"XXX Quite unimplemented". -/
def findSchemaByID (s : RTree) (qid : String) : Except VErr RTree :=
  if s.idOf = qid then .ok s else .error .SchemaNotFound

/-- The root's `schemaByID` index (id string → cached node). -/
def IDCache := List (String × RTree)

/-- `Schema.ResolveID` (schema.go lines 217-243): `root := s.Root()`;
look the id up in `root.schemaByID`; on a miss call
`root.findSchemaByID(id)` and cache a hit.  The model receives the root
directly (the caller node is irrelevant once `Root()` is taken). -/
def resolveID (root : RTree) (cache : IDCache) (qid : String) :
    Except VErr RTree × IDCache :=
  match List.find? (fun p => p.1 == qid) cache with
  | some p => (.ok p.2, cache)
  | Option.none =>
    match findSchemaByID root qid with
    | .ok r => (.ok r, (qid, r) :: cache)
    | .error e => (.error e, cache)

/-- The C6 tree: root with id "a" owning one child with id "b". -/
def c6Tree : RTree := .node "a" [.node "b" []]

/-- C6: the claim says that on an index miss `ResolveID` searches the
entire tree below `Root(n)` and fails with `SchemaNotFound` exactly when
no node of the tree carries the id.  The tree with root id "a" and one
child with id "b" refutes it: a node with id "b" exists (first
conjunct, using the spec's full-tree search), yet `ResolveID` for "b"
returns `SchemaNotFound` because `findSchemaByID` checks only the root
node itself; the lookup for "a" (the root's own id) still succeeds. -/
theorem C6_resolveID_does_not_search_tree :
    treeHasID c6Tree "b" = true ∧
    (resolveID c6Tree [] "b").1 = .error .SchemaNotFound ∧
    (resolveID c6Tree [] "a").1 = .ok c6Tree := by
  refine ⟨?_, rfl, rfl⟩
  simp [treeHasID, listHasID, c6Tree]

/-- A node's position in the tree (a list of child indices). -/
def RPath := List Nat

/-- Navigate to the node at a path. -/
def nodeAtR : RTree → List Nat → Option RTree
  | t, [] => some t
  | .node _ cs, i :: rest =>
    match cs.get? i with
    | some c => nodeAtR c rest
    | Option.none => Option.none

/-- `Schema.Scope` (schema.go lines 851-857): a node's own id if
non-empty or if it has no parent, else the parent's scope; the parent of
the node at `p ++ [i]` is the node at `p` (the resolution model's
children are parent-linked). -/
def scopeOf (root : RTree) (p : List Nat) : String :=
  match nodeAtR root p with
  | some t => if h : t.idOf ≠ "" ∨ p = [] then t.idOf else scopeOf root p.dropLast
  | Option.none => ""
  termination_by p.length
  decreasing_by
    simp_wf
    push_neg at h
    have hp := List.length_pos.mpr h.2
    simp [List.length_dropLast]
    omega

/-- External collaborators of the resolver, out of scope per spec §1:
`urlJoin` is RFC 3986 reference resolution of `v` against the scope's
base URL (`net/url`), returning the absolute URI string `u.String()`;
`fragOf` extracts `u.Fragment`; `ptrGet` is JSON-Pointer navigation
(`go-jspointer`'s `p.Get`). -/
structure Externals where
  urlJoin : String → String → String
  fragOf : String → String
  ptrGet : String → RTree → Except VErr RTree

/-- The `cachedReference` maps.  `New()` allocates one map PER NODE, so
the state is keyed by the owning node's path together with the absolute
URI string. -/
def RefCache := List ((List Nat × String) × RTree)

/-- Result of one `ResolveReference` call: the resolved value, the two
caches after the call, and whether the call was answered from the
reference cache (the resolution-count instrumentation of spec §8). -/
structure ResolveOut where
  res : Except VErr RTree
  idc : IDCache
  rc : RefCache
  hit : Bool

/-- `Schema.ResolveReference(v)` on the node at `sp` (schema.go lines
267-313): resolve `v` to the absolute URI `u` (line 278); READ the
root's `cachedReference[u.String()]` (lines 284-289, root = path `[]`);
on a miss, build the JSON pointer from `u.Fragment`, locate the target
via `s.ResolveID(s.Scope())` (line 298) and navigate with `p.Get`
(line 303); then WRITE the result to `s.cachedReference[u.String()]`
(line 307) — the CALLER's own map at path `sp`, not the root's. -/
def resolveReference (ext : Externals) (root : RTree) (sp : List Nat)
    (v : String) (idc : IDCache) (rc : RefCache) : ResolveOut :=
  let u := ext.urlJoin (scopeOf root sp) v
  match List.find? (fun p => p.1 == (([] : List Nat), u)) rc with
  | some p => ⟨.ok p.2, idc, rc, true⟩
  | Option.none =>
    match resolveID root idc (scopeOf root sp) with
    | (.error e, idc1) => ⟨.error e, idc1, rc, false⟩
    | (.ok t, idc1) =>
      match ext.ptrGet (ext.fragOf u) t with
      | .error e => ⟨.error e, idc1, rc, false⟩
      | .ok r => ⟨.ok r, idc1, ((sp, u), r) :: rc, false⟩

/-- Concrete externals for C5: an empty base scope leaves the reference
string as the absolute URI, and pointer navigation returns its target
document root (enough to exercise the caching protocol). -/
def c5Ext : Externals := ⟨fun _ v => v, fun u => u, fun _ t => .ok t⟩

/-- The C5 tree: a root owning one (parent-linked) child. -/
def c5Tree : RTree := .node "" [.node "" []]

/-- C5: the claim says a repeated `ResolveReference` from the same node
is answered from the single per-root cache, shared by the whole tree.
Resolving "#/x" twice from the CHILD node (path `[0]`) refutes it: the
first call misses and stores its result keyed under the child's own map
(`s.cachedReference`, line 307) instead of the root's — the root map
read at line 285 stays empty — so the second call, given the first
call's caches, still misses (`hit = false`) and re-runs the whole
id-search and pointer navigation.  Both calls do return the same
target. -/
theorem C5_reference_cache_written_to_wrong_node :
    (resolveReference c5Ext c5Tree [0] "#/x" [] []).rc
      = [(([0], "#/x"), c5Tree)] ∧
    (resolveReference c5Ext c5Tree [0] "#/x" [] []).hit = false ∧
    (resolveReference c5Ext c5Tree [0] "#/x"
        (resolveReference c5Ext c5Tree [0] "#/x" [] []).idc
        (resolveReference c5Ext c5Tree [0] "#/x" [] []).rc).hit = false ∧
    (resolveReference c5Ext c5Tree [0] "#/x"
        (resolveReference c5Ext c5Tree [0] "#/x" [] []).idc
        (resolveReference c5Ext c5Tree [0] "#/x" [] []).rc).res
      = (resolveReference c5Ext c5Tree [0] "#/x" [] []).res := by
  refine ⟨?_, ?_, ?_, ?_⟩ <;>
    simp [resolveReference, c5Ext, c5Tree, scopeOf, nodeAtR, RTree.idOf,
      resolveID, findSchemaByID, IDCache, RefCache]

/-- The generic JSON-like tree that `json.Unmarshal` produces when
decoding into `map[string]interface{}`: objects become string-keyed
maps, arrays become `[]interface{}`, numbers become `float64`, plus
strings, booleans and null.  NOTE: `[]string` is NOT an inhabitant —
`json.Unmarshal` never produces it, which makes the `case []string` of
the source's "type" switch (schema.go lines 1174-1183) dead code. -/
inductive GoAny where
  | str (s : String)
  | num (f : Rat)
  | boolV (b : Bool)
  | arr (l : List GoAny)
  | obj (m : List (String × GoAny))
  | nullV

/-- Key lookup in a decoded JSON object (`m[s]`). -/
def lookupGA (m : List (String × GoAny)) (k : String) : Option GoAny :=
  (m.find? (fun p => p.1 == k)).map (·.2)

/-- `extractString` (schema.go lines 927-938): missing key yields the
empty string; a non-string value is `InvalidFieldValue{name}`.
`extractJSPointer` and `extractFormat` delegate to it unchanged. -/
def extractStringF (m : List (String × GoAny)) (s : String) : Except VErr String :=
  match lookupGA m s with
  | some (.str v) => .ok v
  | some _ => .error (.InvalidFieldValue s)
  | Option.none => .ok ""

/-- `extractInt` (schema.go lines 892-907): missing key leaves the
`Integer` untouched (uninitialized); a `float64` value is truncated by
Go's `int(...)` conversion; any other value is `InvalidFieldValue`. -/
def extractIntF (m : List (String × GoAny)) (s : String) : Except VErr GoInteger :=
  match lookupGA m s with
  | some (.num f) => .ok ⟨ratTrunc f, true⟩
  | some _ => .error (.InvalidFieldValue s)
  | Option.none => .ok GoInteger.none

/-- `extractNumber` (schema.go lines 875-890). -/
def extractNumberF (m : List (String × GoAny)) (s : String) : Except VErr Number :=
  match lookupGA m s with
  | some (.num f) => .ok ⟨f, true⟩
  | some _ => .error (.InvalidFieldValue s)
  | Option.none => .ok Number.none

/-- `extractBool` (schema.go lines 909-925): the `Default` field is set
first; a missing key leaves the value uninitialized. -/
def extractBoolF (m : List (String × GoAny)) (s : String) (dflt : Bool) :
    Except VErr GoBool :=
  match lookupGA m s with
  | some (.boolV b) => .ok ⟨b, true, dflt⟩
  | some _ => .error (.InvalidFieldValue s)
  | Option.none => .ok ⟨false, false, dflt⟩

/-- `extractStringList` (schema.go lines 940-963): a single string
becomes a one-element list; an `[]interface{}` must contain strings. -/
def extractStringListF (m : List (String × GoAny)) (s : String) :
    Except VErr (List String) :=
  match lookupGA m s with
  | some (.str v) => .ok [v]
  | some (.arr l) =>
    l.foldr (fun x acc =>
      match x, acc with
      | .str v, .ok r => .ok (v :: r)
      | _, .error e => .error e
      | _, _ => .error (.InvalidFieldValue s)) (.ok [])
  | some _ => .error (.InvalidFieldValue s)
  | Option.none => .ok []

/-- `extractInterfaceList` (schema.go lines 989-1000). -/
def extractInterfaceListF (m : List (String × GoAny)) (s : String) :
    Except VErr (List GoAny) :=
  match lookupGA m s with
  | some (.arr l) => .ok l
  | some _ => .error (.InvalidFieldValue s)
  | Option.none => .ok []

/-- `extractInterface` (schema.go lines 982-987): never fails. -/
def extractInterfaceF (m : List (String × GoAny)) (s : String) : Option GoAny :=
  lookupGA m s

/-- `extractRegexp` (schema.go lines 1002-1012), with a compiled regex
carried as its source string: a non-string value fails with the bare
`ErrInvalidType` (not `InvalidFieldValue`); compilation succeeds for the
pattern strings of the modelled universe. -/
def extractRegexpF (m : List (String × GoAny)) (s : String) :
    Except VErr (Option String) :=
  match lookupGA m s with
  | some (.str v) => .ok (some v)
  | some _ => .error .InvalidType
  | Option.none => .ok Option.none

/-- Modelled from the spec: `primitiveFromString` (declared outside
`schema.go`) maps the seven §3 type names to tags and rejects others. -/
def primitiveFromString (s : String) : Except VErr PrimitiveType :=
  if s = "null" then .ok .nullT
  else if s = "boolean" then .ok .booleanT
  else if s = "object" then .ok .objectT
  else if s = "array" then .ok .arrayT
  else if s = "number" then .ok .numberT
  else if s = "string" then .ok .stringT
  else if s = "integer" then .ok .integerT
  else .error (.InvalidFieldValue "type")

/-- The "type" keyword switch of `extract` (schema.go lines 1166-1187):
a string becomes a one-element type list; the `case []string` arm is
dead after `json.Unmarshal` (which produces `[]interface{}`, never
`[]string`), so every non-string value — including a JSON array of type
names — falls to the `default` arm, `InvalidFieldValue{"type"}`. -/
def extractTypeF (m : List (String × GoAny)) : Except VErr (List PrimitiveType) :=
  match lookupGA m "type" with
  | some (.str v) =>
    match primitiveFromString v with
    | .ok t => .ok [t]
    | .error e => .error e
  | some _ => .error (.InvalidFieldValue "type")
  | Option.none => .ok []

/-- `int(v.(float64))`-style silent discard used at schema.go lines
1201-1215: those four `if extractInt(...); err != nil` statements throw
the function result away (the `err` they test is the stale `nil` from
the preceding step), so a failed extraction leaves the field at its
uninitialized zero value and extraction continues. -/
def discardErr : Except VErr GoInteger → GoInteger
  | .ok v => v
  | .error _ => GoInteger.none

/-- The flat fragment of the schema node produced by `extract`: every
scalar keyword, in the field order the source extracts them.  The
sub-schema-bearing keywords (`definitions`, `items`, `properties`,
`additionalProperties`, `patternProperties`, `allOf`, `anyOf`, `oneOf`,
`not`) are outside this fragment; `extractFlat` rejects documents
containing them, and on the remaining universe `extract`'s behavior on
those steps is a no-op (each sees a missing key). -/
structure FlatSchema where
  sid : String
  title : String
  description : String
  required : List String
  schemaRef : String
  reference : String
  format : String
  enum : List GoAny
  dflt : Option GoAny
  ty : List PrimitiveType
  pattern : Option String
  (minLength maxLength minItems maxItems : GoInteger)
  uniqueItems : GoBool
  (maxProperties minProperties : GoInteger)
  minimum : Number
  exclusiveMinimum : GoBool
  maximum : Number
  exclusiveMaximum : GoBool
  multipleOf : Number

/-- The sub-schema-bearing keywords not covered by the flat fragment. -/
def subSchemaKeys : List String :=
  ["definitions", "items", "properties", "additionalProperties",
   "patternProperties", "allOf", "anyOf", "oneOf", "not"]

/-- `Schema.extract` (schema.go lines 1127-1300) on the flat fragment,
step for step in source order.  Lines 1201-1215 (minLength, maxLength,
minItems, maxItems) DISCARD the `extractInt` result — the `if` tests
the stale `err` from the pattern step — so wrong-typed values for those
four keywords are silently ignored instead of failing.  Note also the
lowercased lookup keys "exclusiveminimum"/"exclusivemaximum" (lines
1233, 1241).  Documents carrying a sub-schema keyword are outside the
fragment and rejected with `FormatParseError` (a modelling boundary,
not source behavior). -/
def extractFlat (m : List (String × GoAny)) : Except VErr FlatSchema := do
  if subSchemaKeys.any (fun k => (lookupGA m k).isSome) then
    throw .FormatParseError
  let sid ← extractStringF m "id"
  let title ← extractStringF m "title"
  let description ← extractStringF m "description"
  let required ← extractStringListF m "required"
  let schemaRef ← extractStringF m "$schema"
  let reference ← extractStringF m "$ref"
  let format ← extractStringF m "format"
  let enum ← extractInterfaceListF m "enum"
  let dflt := extractInterfaceF m "default"
  let ty ← extractTypeF m
  let pattern ← extractRegexpF m "pattern"
  let minLength := discardErr (extractIntF m "minLength")
  let maxLength := discardErr (extractIntF m "maxLength")
  let minItems := discardErr (extractIntF m "minItems")
  let maxItems := discardErr (extractIntF m "maxItems")
  let uniqueItems ← extractBoolF m "uniqueItems" false
  let maxProperties ← extractIntF m "maxProperties"
  let minProperties ← extractIntF m "minProperties"
  let minimum ← extractNumberF m "minimum"
  let exclusiveMinimum ← extractBoolF m "exclusiveminimum" false
  let maximum ← extractNumberF m "maximum"
  let exclusiveMaximum ← extractBoolF m "exclusivemaximum" false
  let multipleOf ← extractNumberF m "multipleOf"
  pure ⟨sid, title, description, required, schemaRef, reference, format,
    enum, dflt, ty, pattern, minLength, maxLength, minItems, maxItems,
    uniqueItems, maxProperties, minProperties, minimum, exclusiveMinimum,
    maximum, exclusiveMaximum, multipleOf⟩

/-- Modelled from the spec: the JSON name of a §3 primitive type tag
(the `PrimitiveType` marshaller is declared outside `schema.go`). -/
def primitiveName : PrimitiveType → String
  | .nullT => "null"
  | .booleanT => "boolean"
  | .objectT => "object"
  | .arrayT => "array"
  | .numberT => "number"
  | .stringT => "string"
  | .integerT => "integer"

/-- `placeString` (schema.go lines 1306-1310): emit only when non-empty. -/
def placeStringGA (k v : String) : List (String × GoAny) :=
  if v ≠ "" then [(k, .str v)] else []

/-- `placeInteger` (schema.go lines 1351-1356): emit only when initialized. -/
def placeIntegerGA (k : String) (n : GoInteger) : List (String × GoAny) :=
  if n.Initialized then [(k, .num (n.Val : Rat))] else []

/-- `placeNumber` (schema.go lines 1344-1349): emit only when initialized. -/
def placeNumberGA (k : String) (n : Number) : List (String × GoAny) :=
  if n.Initialized then [(k, .num n.Val)] else []

/-- `Schema.MarshalJSON` (schema.go lines 1358-1447) restricted to the
flat fragment, statement for statement: on this fragment the skipped
statements only ever see empty/absent values and emit nothing
(`AllowAdditionalItems` is false, `definitions`/`items`/`properties`/
`patternProperties`/`allOf`/`anyOf`/`oneOf` are empty, `Not` is nil, and
`AdditionalProperties` is the allow-any value, for which lines 1429-1436
emit nothing).  The `type` switch (lines 1368-1374) emits a bare string
for a single tag and an ARRAY of strings otherwise; `exclusiveMinimum` /
`exclusiveMaximum` are emitted under their camelCase names (lines
1421-1427).  `multipleOf` (lines 1438-1440) is guarded by `Val != 0`. -/
def marshalFlat (s : FlatSchema) : List (String × GoAny) :=
  placeStringGA "id" s.sid ++
  placeStringGA "title" s.title ++
  placeStringGA "description" s.description ++
  placeStringGA "$schema" s.schemaRef ++
  placeStringGA "$ref" s.reference ++
  (if s.required.length > 0 then
    [("required", GoAny.arr (s.required.map GoAny.str))] else []) ++
  (if s.enum.length > 0 then [("enum", GoAny.arr s.enum)] else []) ++
  (match s.ty with
   | [] => []
   | [t] => [("type", GoAny.str (primitiveName t))]
   | l => [("type", GoAny.arr (l.map (fun t => GoAny.str (primitiveName t))))]) ++
  (match s.pattern with
   | some p => placeStringGA "pattern" p
   | Option.none => []) ++
  placeIntegerGA "maxLength" s.maxLength ++
  placeIntegerGA "minLength" s.minLength ++
  placeIntegerGA "maxItems" s.maxItems ++
  placeIntegerGA "minItems" s.minItems ++
  placeIntegerGA "maxProperties" s.maxProperties ++
  placeIntegerGA "minProperties" s.minProperties ++
  (if s.uniqueItems.Initialized then
    [("uniqueItems", GoAny.boolV s.uniqueItems.bool)] else []) ++
  (match s.dflt with
   | some v => [("default", v)]
   | Option.none => []) ++
  placeStringGA "format" s.format ++
  placeNumberGA "minimum" s.minimum ++
  (if s.exclusiveMinimum.Initialized then
    [("exclusiveMinimum", GoAny.boolV s.exclusiveMinimum.bool)] else []) ++
  placeNumberGA "maximum" s.maximum ++
  (if s.exclusiveMaximum.Initialized then
    [("exclusiveMaximum", GoAny.boolV s.exclusiveMaximum.bool)] else []) ++
  (if s.multipleOf.Val ≠ 0 then placeNumberGA "multipleOf" s.multipleOf else [])

/-- A flat schema with every keyword absent. -/
def emptyFlat : FlatSchema :=
  ⟨"", "", "", [], "", "", "", [], Option.none, [], Option.none,
   GoInteger.none, GoInteger.none, GoInteger.none, GoInteger.none,
   GoBool.none, GoInteger.none, GoInteger.none, Number.none, GoBool.none,
   Number.none, GoBool.none, Number.none⟩

/-- The C8 schema with the two-element type list `[integer, string]`. -/
def c8TypeSchema : FlatSchema :=
  { emptyFlat with ty := [.integerT, .stringT] }

/-- The C8 schema with `minimum: 1` and an initialized
`exclusiveMinimum: true` flag. -/
def c8ExclSchema : FlatSchema :=
  { emptyFlat with minimum := ⟨1, true⟩, exclusiveMinimum := ⟨true, true, false⟩ }

/-- C8: the claim says serializing a schema and re-deserializing the
result loses no information for any keyword, including multi-element
type lists and the exclusiveMinimum flag.  Both fail: (1) a type list
`[integer, string]` marshals to a JSON array, which `extract`'s "type"
switch rejects with `InvalidFieldValue` (its `[]string` case is dead
after `json.Unmarshal`), so the round trip does not even produce a
schema; (2) `MarshalJSON` writes the flag under "exclusiveMinimum"
(line 1422) while `extract` reads "exclusiveminimum" (line 1233), so
the round-tripped schema has an uninitialized flag — the marshalled
document carries the key, and the extracted node has lost it. -/
theorem C8_round_trip_loses_information :
    extractFlat (marshalFlat c8TypeSchema) = .error (.InvalidFieldValue "type") ∧
    (lookupGA (marshalFlat c8ExclSchema) "exclusiveMinimum").isSome = true ∧
    c8ExclSchema.exclusiveMinimum.Initialized = true ∧
    (extractFlat (marshalFlat c8ExclSchema)).toOption.map
      (fun s => s.exclusiveMinimum.Initialized) = some false := by
  refine ⟨rfl, rfl, rfl, rfl⟩

/-- C9: the claim says a wrong-typed value for a recognized keyword makes
`extract` fail with `InvalidFieldValue` naming the keyword, in
particular for minLength/maxLength/minItems/maxItems.  For the document
`{"minLength": "foo"}`, `extractInt` itself does report
`InvalidFieldValue{"minLength"}` — but the call sites at schema.go
lines 1201-1215 discard that result (`if extractInt(...); err != nil`
tests the stale `err`), so extraction SUCCEEDS and leaves `minLength`
uninitialized: the malformed keyword is silently ignored. -/
theorem C9_minLength_error_silently_discarded :
    extractIntF [("minLength", GoAny.str "foo")] "minLength"
      = .error (.InvalidFieldValue "minLength") ∧
    (extractFlat [("minLength", GoAny.str "foo")]).toOption.map
      (fun s => s.minLength) = some GoInteger.none := by
  refine ⟨rfl, rfl⟩

/-- The kinds of sub-schema-bearing edges of a schema node, i.e. the
keywords through which `extract` builds child nodes. -/
inductive EdgeKind where
  | definitionsE
  | additionalItemsE
  | itemsE
  | propertiesE
  | allOfE
  | anyOfE
  | oneOfE
  | notE
  | patternPropertiesE
  | additionalPropertiesE
deriving DecidableEq, Repr

/-- The edges `applyParentSchema` (schema.go lines 144-184) walks: its
loops cover `Definitions`, `AdditionalItems`, `Items`, `properties`,
`AllOf`, `AnyOf`, `OneOf` and `Not` — children under
`PatternProperties` and under a schema-valued `AdditionalProperties`
are NOT visited. -/
def linkedEdge : EdgeKind → Bool
  | .patternPropertiesE => false
  | .additionalPropertiesE => false
  | _ => true

/-- A schema document seen as a tree of sub-schema edges (the scalar
keywords play no role in parent linking). -/
inductive PTree where
  | node (children : List (EdgeKind × PTree))

/-- The parent-pointer state: each node (addressed by its child-index
path from the document root) maps to its parent's path, or none. -/
def PMap := List Nat → Option (List Nat)

/-- All parent pointers nil (the state right after `json.Unmarshal`
allocates the nodes). -/
def pmEmpty : PMap := fun _ => Option.none

/-- `v.setParent(s)` (schema.go lines 140-142). -/
def pmSet (pm : PMap) (k v : List Nat) : PMap :=
  fun q => if q = k then some v else pm q

mutual

/-- `Schema.applyParentSchema` (schema.go lines 144-184) at the node
`t` sitting at path `base`: walk the linked children, set each one's
parent to `t`, and recurse into it. -/
def applyParentSchema (t : PTree) (base : List Nat) (pm : PMap) : PMap :=
  match t with
  | .node cs => applyParentChildren cs 0 base pm
  termination_by sizeOf t
  decreasing_by
    all_goals simp_wf
    all_goals omega

/-- The per-child body of `applyParentSchema`'s loops: a linked child
gets `v.setParent(s)` followed by `v.applyParentSchema()`; a
`patternProperties` / schema-valued `additionalProperties` child is
skipped entirely. -/
def applyParentChildren (cs : List (EdgeKind × PTree)) (k : Nat)
    (base : List Nat) (pm : PMap) : PMap :=
  match cs with
  | [] => pm
  | (e, c) :: rest =>
    let pm1 :=
      if linkedEdge e then
        applyParentSchema c (base ++ [k]) (pmSet pm (base ++ [k]) base)
      else pm
    applyParentChildren rest (k + 1) base pm1
  termination_by sizeOf cs
  decreasing_by
    all_goals simp_wf
    all_goals omega

end

mutual

/-- `Schema.extract` (schema.go lines 1127-1300) as far as parent
linking is concerned: every sub-schema-bearing keyword extracts its
children recursively (each child's own `extract` runs, ending in that
child's `applyParentSchema`), and the node finishes with its own
`s.applyParentSchema()` (line 1297). -/
def extractParents (t : PTree) (base : List Nat) (pm : PMap) : PMap :=
  match t with
  | .node cs => applyParentSchema (.node cs) base (extractChildren cs 0 base pm)
  termination_by sizeOf t
  decreasing_by
    all_goals simp_wf
    all_goals omega

/-- The recursive child extraction of `extract`: EVERY child is
extracted, whatever its edge kind (`extractSchemaMap`,
`extractSchemaList`, `extractRegexpToSchemaMap`, `extractSchema` all
call `extract` on their payloads). -/
def extractChildren (cs : List (EdgeKind × PTree)) (k : Nat)
    (base : List Nat) (pm : PMap) : PMap :=
  match cs with
  | [] => pm
  | (_, c) :: rest => extractChildren rest (k + 1) base (extractParents c (base ++ [k]) pm)
  termination_by sizeOf cs
  decreasing_by
    all_goals simp_wf
    all_goals omega

end

/-- `Schema.Root` (schema.go lines 197-206): follow parent pointers
until a node with no parent; the fuel (one unit per hop) is the path
length, which bounds the chain in every state `extract` produces. -/
def rootOfFuel (pm : PMap) : Nat → List Nat → List Nat
  | 0, p => p
  | fuel + 1, p =>
    match pm p with
    | Option.none => p
    | some q => rootOfFuel pm fuel q

/-- `Root` of the node at `p` under parent state `pm`. -/
def rootOf (pm : PMap) (p : List Nat) : List Nat :=
  rootOfFuel pm p.length p

/-- The path exists in the tree and uses only parent-linked edges. -/
def linkedPathB : PTree → List Nat → Bool
  | _, [] => true
  | .node cs, i :: rest =>
    match cs.get? i with
    | some (e, c) => linkedEdge e && linkedPathB c rest
    | Option.none => false

/-- `applyParentSchema` at base `b` writes only keys that strictly
extend `b` (and `applyParentChildren` with counter `k` only keys whose
next index is at least `k`); every other key keeps its previous parent
pointer.  Stated with an explicit size bound for the joint strong
induction over the mutual recursion. -/
theorem applyParent_locality :
    ∀ n : Nat,
      (∀ t base pm q, sizeOf t ≤ n → (∀ r : List Nat, r ≠ [] → q ≠ base ++ r) →
        applyParentSchema t base pm q = pm q) ∧
      (∀ cs k base pm q, sizeOf cs ≤ n →
        (∀ (j : Nat) (r : List Nat), k ≤ j → q ≠ base ++ j :: r) →
        applyParentChildren cs k base pm q = pm q) := by
  intro n
  induction n using Nat.strong_induction_on with
  | _ n IH =>
    constructor
    · rintro ⟨cs⟩ base pm q hsz hq
      have hcs : sizeOf cs < n := by simp_arith at hsz; omega
      rw [applyParentSchema]
      exact (IH (sizeOf cs) hcs).2 cs 0 base pm q le_rfl
        (fun j r hj => hq (j :: r) (by simp))
    · intro cs k base pm q hsz hq
      rcases cs with _ | ⟨⟨e, c⟩, rest⟩
      · rw [applyParentChildren]
      · have hrest : sizeOf rest < n := by simp_arith at hsz; omega
        have hc : sizeOf c < n := by simp_arith at hsz; omega
        rw [applyParentChildren]
        rw [(IH (sizeOf rest) hrest).2 rest (k + 1) base _ q le_rfl
          (fun j r hj => hq j r (by omega))]
        by_cases hl : linkedEdge e
        · have loc1 := (IH (sizeOf c) hc).1 c (base ++ [k])
            (pmSet pm (base ++ [k]) base) q le_rfl
            (fun r hr hcontra => hq k r le_rfl (by simpa using hcontra))
          have hqk : q ≠ base ++ [k] := hq k [] le_rfl
          simp only [hl, if_true, loc1, pmSet, hqk, if_false]
        · simp [hl]

/-- After `applyParentSchema` runs at base `b`, every node reached from
`b` by a non-empty path of LINKED edges has its parent pointer set to
its immediate parent — whatever the previous state held. -/
theorem applyParent_char :
    ∀ n : Nat,
      (∀ t base pm p, sizeOf t ≤ n → linkedPathB t p = true → p ≠ [] →
        applyParentSchema t base pm (base ++ p) = some (base ++ p.dropLast)) ∧
      (∀ cs k base pm j rest, sizeOf cs ≤ n →
        (match cs.get? j with
         | some (e, c) => linkedEdge e && linkedPathB c rest
         | Option.none => false) = true →
        applyParentChildren cs k base pm (base ++ (k + j) :: rest)
          = some (base ++ ((k + j) :: rest).dropLast)) := by
  intro n
  induction n using Nat.strong_induction_on with
  | _ n IH =>
    constructor
    · rintro ⟨cs⟩ base pm p hsz hlp hne
      have hcs : sizeOf cs < n := by simp_arith at hsz; omega
      rcases p with _ | ⟨i, rest⟩
      · exact absurd rfl hne
      · rw [applyParentSchema]
        have hcond : (match cs.get? i with
            | some (e, c) => linkedEdge e && linkedPathB c rest
            | Option.none => false) = true := by
          simpa [linkedPathB] using hlp
        have h2 := (IH (sizeOf cs) hcs).2 cs 0 base pm i rest le_rfl hcond
        simpa using h2
    · intro cs k base pm j rest hsz hcond
      rcases cs with _ | ⟨⟨e0, c0⟩, cs'⟩
      · simp [List.get?] at hcond
      · have hrest : sizeOf cs' < n := by simp_arith at hsz; omega
        have hc : sizeOf c0 < n := by simp_arith at hsz; omega
        rcases j with _ | j'
        · simp only [List.get?] at hcond
          have hand : linkedEdge e0 = true ∧ linkedPathB c0 rest = true := by
            simpa using hcond
          obtain ⟨hl, hlp0⟩ := hand
          rw [applyParentChildren]
          have loct := (applyParent_locality (sizeOf cs')).2 cs' (k + 1) base
            (if linkedEdge e0 then
              applyParentSchema c0 (base ++ [k]) (pmSet pm (base ++ [k]) base)
            else pm)
            (base ++ (k + 0) :: rest) le_rfl ?hloc
          case hloc =>
            intro j r hj hcontra
            have h := List.append_cancel_left hcontra
            injection h with h1 h2
            omega
          rw [loct]
          simp only [hl, if_true]
          rcases rest with _ | ⟨r0, rest'⟩
          · have locc := (applyParent_locality (sizeOf c0)).1 c0 (base ++ [k])
              (pmSet pm (base ++ [k]) base) (base ++ (k + 0) :: []) le_rfl ?hloc2
            case hloc2 =>
              intro r hr hcontra
              rw [List.append_assoc] at hcontra
              have h := List.append_cancel_left hcontra
              rcases r with _ | ⟨x, xs⟩
              · exact hr rfl
              · injection h with h1 h2
                exact List.cons_ne_nil x xs h2.symm
            rw [locc]
            simp [pmSet]
          · have hchar := (IH (sizeOf c0) hc).1 c0 (base ++ [k])
              (pmSet pm (base ++ [k]) base) (r0 :: rest') le_rfl hlp0 (by simp)
            simpa [List.append_assoc] using hchar
        · simp only [List.get?] at hcond
          rw [applyParentChildren]
          have h2 := (IH (sizeOf cs') hrest).2 cs' (k + 1) base
            (if linkedEdge e0 then
              applyParentSchema c0 (base ++ [k]) (pmSet pm (base ++ [k]) base)
            else pm) j' rest le_rfl hcond
          have harith : k + (j' + 1) = (k + 1) + j' := by omega
          rw [harith]
          exact h2

/-- A linked path stays linked after dropping its last step. -/
theorem linkedPathB_dropLast :
    ∀ (p : List Nat) (t : PTree),
      linkedPathB t p = true → linkedPathB t p.dropLast = true := by
  intro p
  induction p with
  | nil => intro t h; simpa using h
  | cons i rest IH =>
    intro t h
    rcases rest with _ | ⟨j, rest2⟩
    · rcases t with ⟨cs⟩
      simp [linkedPathB]
    · rcases t with ⟨cs⟩
      rw [List.dropLast_cons₂]
      simp only [linkedPathB] at h ⊢
      rcases hg : cs.get? i with _ | ⟨e, c⟩
      · rw [hg] at h; simp at h
      · rw [hg] at h
        have hand : linkedEdge e = true ∧ linkedPathB c (j :: rest2) = true := by
          simpa using h
        simp [hand.1, IH c hand.2]

/-- `extractParents` at base `b` also writes only keys strictly
extending `b`: in particular the root's own parent pointer is never
set. -/
theorem extract_locality :
    ∀ n : Nat,
      (∀ t base pm q, sizeOf t ≤ n → (∀ r : List Nat, r ≠ [] → q ≠ base ++ r) →
        extractParents t base pm q = pm q) ∧
      (∀ cs k base pm q, sizeOf cs ≤ n →
        (∀ (j : Nat) (r : List Nat), q ≠ base ++ j :: r) →
        extractChildren cs k base pm q = pm q) := by
  intro n
  induction n using Nat.strong_induction_on with
  | _ n IH =>
    constructor
    · rintro ⟨cs⟩ base pm q hsz hq
      have hcs : sizeOf cs < n := by simp_arith at hsz; omega
      rw [extractParents]
      rw [(applyParent_locality (sizeOf (PTree.node cs))).1 (PTree.node cs) base _ q le_rfl hq]
      exact (IH (sizeOf cs) hcs).2 cs 0 base pm q le_rfl
        (fun j r => hq (j :: r) (by simp))
    · intro cs k base pm q hsz hq
      rcases cs with _ | ⟨⟨e, c⟩, rest⟩
      · rw [extractChildren]
      · have hrest : sizeOf rest < n := by simp_arith at hsz; omega
        have hc : sizeOf c < n := by simp_arith at hsz; omega
        rw [extractChildren]
        rw [(IH (sizeOf rest) hrest).2 rest (k + 1) base _ q le_rfl hq]
        exact (IH (sizeOf c) hc).1 c (base ++ [k]) pm q le_rfl
          (fun r hr hcontra => hq k r (by simpa using hcontra))

/-- C10 amended: after construction, every descendant reached from the
document root through `definitions` / `properties` / `items` /
`additionalItems` / `allOf` / `anyOf` / `oneOf` / `not` edges only is
linked to its immediate parent, the root itself keeps no parent, and
`Root` of every such descendant is the document root.  (Descendants
reached through a `patternProperties` or schema-valued
`additionalProperties` edge are NOT linked — see the counterexample.) -/
theorem C10_amended_linked_descendants :
    ∀ (t : PTree) (p : List Nat), linkedPathB t p = true →
      extractParents t [] pmEmpty [] = Option.none ∧
      (p ≠ [] → extractParents t [] pmEmpty p = some p.dropLast) ∧
      rootOf (extractParents t [] pmEmpty) p = [] := by
  intro t p hlp
  have hpar : ∀ q : List Nat, linkedPathB t q = true → q ≠ [] →
      extractParents t [] pmEmpty q = some q.dropLast := by
    intro q hq hne
    rcases t with ⟨cs⟩
    rw [extractParents]
    have h := (applyParent_char (sizeOf (PTree.node cs))).1 (PTree.node cs) []
      (extractChildren cs 0 [] pmEmpty) q le_rfl hq hne
    simpa using h
  have hroot0 : extractParents t [] pmEmpty [] = Option.none := by
    have h := (extract_locality (sizeOf t)).1 t [] pmEmpty [] le_rfl
      (fun r hr hcontra => hr (by simpa using hcontra.symm))
    simpa [pmEmpty] using h
  refine ⟨hroot0, hpar p hlp, ?_⟩
  have main : ∀ (n : Nat) (q : List Nat), q.length ≤ n → linkedPathB t q = true →
      rootOf (extractParents t [] pmEmpty) q = [] := by
    intro n
    induction n with
    | zero =>
      intro q hlen _
      have hq : q = [] := List.length_eq_zero.mp (Nat.le_zero.mp hlen)
      subst hq
      rfl
    | succ n IH =>
      intro q hlen hq
      by_cases hqe : q = []
      · subst hqe; rfl
      · have hpm := hpar q hq hqe
        rcases hlq : q.length with _ | m
        · exact absurd (List.length_eq_zero.mp hlq) hqe
        · rw [rootOf, hlq]
          simp only [rootOfFuel]
          rw [hpm]
          have hm : q.dropLast.length = m := by
            have hd := List.length_dropLast q
            omega
          have hIH := IH q.dropLast (by omega) (linkedPathB_dropLast q t hq)
          rw [rootOf, hm] at hIH
          exact hIH
  exact main p.length p le_rfl hlp

/-- The bare witness tree for the amended C10 theorem: one child under
`properties` (a linked edge). -/
def c10Linked : PTree := .node [(.propertiesE, .node [])]

/-- C10 amended witness: the amended theorem applied at the concrete
one-child `properties` tree and the path `[0]`. -/
theorem C10_amended_linked_descendants_witness :
    linkedPathB c10Linked [0] = true ∧
    (extractParents c10Linked [] pmEmpty [] = Option.none ∧
     ([0] ≠ ([] : List Nat) →
       extractParents c10Linked [] pmEmpty [0] = some ([0] : List Nat).dropLast) ∧
     rootOf (extractParents c10Linked [] pmEmpty) [0] = []) :=
  ⟨rfl, C10_amended_linked_descendants c10Linked [0] rfl⟩

/-- The C10 counterexample tree: one child under `patternProperties`. -/
def c10Tree : PTree := .node [(.patternPropertiesE, .node [])]

/-- C10 counterexample: the claim says construction links EVERY
descendant — including those reached through `patternProperties` and a
schema-valued `additionalProperties` — so that only the root is
parentless and `Root` of every sub-schema is the document root.  For
the document whose only sub-schema hangs off `patternProperties`, the
loops of `applyParentSchema` (schema.go lines 144-184) never visit the
child: after construction its parent pointer is still none (so root
`[]` and child `[0]` are BOTH parentless) and `Root(child)` is the
child itself, not the document root. -/
theorem C10_counterexample_patternProperties_child_unlinked :
    extractParents c10Tree [] pmEmpty [0] = Option.none ∧
    extractParents c10Tree [] pmEmpty [] = Option.none ∧
    rootOf (extractParents c10Tree [] pmEmpty) [0] = [0] := by
  refine ⟨?_, ?_, ?_⟩ <;>
    simp [c10Tree, extractParents, extractChildren, applyParentSchema,
      applyParentChildren, linkedEdge, pmSet, pmEmpty, rootOf, rootOfFuel]

end JSSchema
